import Mathlib

/-!
Verification of the mention-to-reply orchestration engine of the `skyelewa`
Bluesky bot (`src/modules/elewa/elewaservice.ts`).

Strings are modelled as `List Char` (one `Char` per JS string position);
`String.prototype.trim`, `substring`, `lastIndexOf` and template literals are
embedded as list operations.  The external world (Bluesky `createRecord`,
the Gemini HTTP endpoint) is modelled as an oracle (`World`) giving the
outcome of each attempt of each call; `handleMention` then becomes a pure
function returning its result (normal return or propagated exception) plus
the trace of observable events (publish attempts, successful posts,
generation invocation, delete attempts).
-/

deriving instance DecidableEq for Except

namespace Elewa

/-- Whitespace test used by JS `String.prototype.trim` (ASCII whitespace,
NBSP, the Unicode space separators, line separators and BOM). -/
def isJsWS (c : Char) : Bool :=
  let v := c.toNat
  v == 9 || v == 10 || v == 11 || v == 12 || v == 13 || v == 32 ||
  v == 160 || v == 0x1680 || (decide (0x2000 ≤ v) && decide (v ≤ 0x200A)) ||
  v == 0x2028 || v == 0x2029 || v == 0x202F || v == 0x205F ||
  v == 0x3000 || v == 0xFEFF

/-- JS `text.trim()`: drop whitespace from both ends. -/
def jsTrim (l : List Char) : List Char :=
  ((l.dropWhile isJsWS).reverse.dropWhile isJsWS).reverse

/-- Index of the last occurrence of `c` in `l`, if any
(the `Nat`-valued core of JS `lastIndexOf`). -/
def lastIdx : List Char → Char → Option Nat
  | [], _ => none
  | a :: as, c =>
    match lastIdx as c with
    | some i => some (i + 1)
    | none => if a = c then some 0 else none

/-- JS `l.lastIndexOf(c)`: the last index of `c`, or `-1` when absent. -/
def lastIndexOf (l : List Char) (c : Char) : Int :=
  match lastIdx l c with
  | some i => (i : Int)
  | none => -1

/-- `MAX_POST_LENGTH` from the source. -/
def MAX_POST_LENGTH : Nat := 300

/-- `maxContentLength = MAX_POST_LENGTH - 6` from `splitTextIntoPosts`. -/
def maxContentLength : Nat := MAX_POST_LENGTH - 6

/-- The split point chosen by one iteration of the `while` loop of
`splitTextIntoPosts`: the whole remaining text when it fits in the content
budget; otherwise the budget, moved back to the last space of the
budget-length prefix when that space sits at an index `> 15`. -/
def splitPoint (remaining : List Char) : Nat :=
  if remaining.length > maxContentLength then
    let chunk := remaining.take maxContentLength
    let idealSplitPoint := lastIndexOf chunk ' '
    if idealSplitPoint > 15 then idealSplitPoint.toNat else maxContentLength
  else remaining.length

/-- Fuelled form of the `while` loop of `splitTextIntoPosts`; the fuel is
only a structural-recursion device, `remaining.length` fuel always
suffices (`splitChunksF_congr`). -/
def splitChunksF : Nat → List Char → List (List Char)
  | 0, _ => []
  | fuel + 1, remaining =>
    if remaining.length = 0 then []
    else
      let sp := splitPoint remaining
      jsTrim (remaining.take sp) :: splitChunksF fuel (jsTrim (remaining.drop sp))

/-- The chunking loop of `splitTextIntoPosts` (before pagination). -/
def splitChunks (remaining : List Char) : List (List Char) :=
  splitChunksF remaining.length remaining

/-- The pagination suffix `" (i/n)"` appended by `splitTextIntoPosts`. -/
def pageSuffix (i n : Nat) : List Char :=
  [' ', '('] ++ (Nat.repr i).toList ++ ['/'] ++ (Nat.repr n).toList ++ [')']

/-- `ElewaService.splitTextIntoPosts`: chunk the text, then append
`" (i/n)"` to every chunk whenever more than one chunk was produced. -/
def splitTextIntoPosts (text : List Char) : List (List Char) :=
  let chunks := splitChunks text
  let totalParts := chunks.length
  chunks.enum.map fun p =>
    if totalParts > 1 then p.2 ++ pageSuffix (p.1 + 1) totalParts else p.2

/-- Concrete text (length 295, one space at index 20) exercising the
space-seeking branch of the segmenter. -/
def spaceText : List Char := List.replicate 20 'a' ++ ' ' :: List.replicate 274 'a'

/-- Reference to a published post: the `{ uri, cid }` pairs returned by
`createRecord` and carried in reply links. -/
structure PostRef where
  uri : String
  cid : String
deriving DecidableEq

/-- The reply structure required by the Bsky API (`ReplyRef` in the source). -/
structure ReplyRef where
  root : PostRef
  parent : PostRef
deriving DecidableEq

/-- Error escaping `postRecord`: either the last operation error, rethrown
on the final attempt, or the `new Error('Post record loop unexpectedly
terminated.')` fallthrough after the loop. -/
inductive RErr (ε : Type) where
  | op (e : ε)
  | loopEnd
deriving DecidableEq

/-- The retry `for` loop of `ElewaService.postRecord`, run from `attempt`
with the given fuel (the loop performs at most `retries` iterations, so
`retries` fuel suffices).  `op attempt` is the outcome the external world
gives the body of attempt number `attempt`.  Returns the result (success,
or the error propagated to the caller), the number of attempts performed
and the list of back-off delays slept, in order. -/
def retryFrom {ε α : Type} (op : Nat → Except ε α) (base retries : Nat) :
    Nat → Nat → Except (RErr ε) α × Nat × List Nat
  | 0, _ => (Except.error RErr.loopEnd, 0, [])
  | fuel + 1, attempt =>
    if attempt < retries then
      match op attempt with
      | Except.ok a => (Except.ok a, 1, [])
      | Except.error e =>
        if attempt = retries - 1 then (Except.error (RErr.op e), 1, [])
        else
          let d := 2 ^ attempt * base
          let r := retryFrom op base retries fuel (attempt + 1)
          (r.1, r.2.1 + 1, d :: r.2.2)
    else (Except.error RErr.loopEnd, 0, [])

/-- The whole retry wrapper of `postRecord` (attempts `0 .. retries-1`,
delay `2 ^ attempt * base` ms between failed attempts). -/
def retryRun {ε α : Type} (op : Nat → Except ε α) (base retries : Nat) :
    Except (RErr ε) α × Nat × List Nat :=
  retryFrom op base retries retries 0

/-- One attribution entry of the Gemini grounding metadata
(`attribution.web?.uri` / `attribution.web?.title`; `none` models a
missing field or a missing `web` object). -/
structure GemAttribution where
  uri : Option (List Char)
  title : Option (List Char)
deriving DecidableEq

/-- The first Gemini candidate as read by `handleMention`:
`candidate?.content?.parts?.[0]?.text` and
`candidate?.groundingMetadata?.groundingAttributions`. -/
structure GemCandidate where
  text : Option (List Char)
  attrs : Option (List GemAttribution)
deriving DecidableEq

/-- A parsed Gemini response body; `candidate` is `candidates?.[0]`. -/
structure GemResponse where
  candidate : Option GemCandidate
deriving DecidableEq

/-- Outcome of one `fetch` of `safeGeminiCall`: a response with its `ok`
flag, `status` and parsed body, or a thrown transport error. -/
inductive GemAttempt where
  | resp (ok : Bool) (status : Nat) (body : GemResponse)
  | net (e : Nat)
deriving DecidableEq

/-- Error escaping `safeGeminiCall`: the `Error` built from a non-OK HTTP
status, or a rethrown transport error. -/
inductive GErr where
  | http (status : Nat)
  | net (e : Nat)
deriving DecidableEq

/-- The retry `for` loop of `ElewaService.safeGeminiCall` (1000 ms base
delay, dedicated 429 branch, non-OK statuses thrown and caught by the
surrounding `catch`, `undefined` returned when the loop falls through). -/
def geminiFrom (op : Nat → GemAttempt) (retries : Nat) :
    Nat → Nat → Except GErr (Option GemResponse) × Nat × List Nat
  | 0, _ => (Except.ok none, 0, [])
  | fuel + 1, attempt =>
    if attempt < retries then
      match op attempt with
      | GemAttempt.resp true _ body => (Except.ok (some body), 1, [])
      | GemAttempt.resp false status _ =>
        if status = 429 ∧ attempt < retries - 1 then
          let d := 2 ^ attempt * 1000
          let r := geminiFrom op retries fuel (attempt + 1)
          (r.1, r.2.1 + 1, d :: r.2.2)
        else if attempt = retries - 1 then (Except.error (GErr.http status), 1, [])
        else
          let d := 2 ^ attempt * 1000
          let r := geminiFrom op retries fuel (attempt + 1)
          (r.1, r.2.1 + 1, d :: r.2.2)
      | GemAttempt.net e =>
        if attempt = retries - 1 then (Except.error (GErr.net e), 1, [])
        else
          let d := 2 ^ attempt * 1000
          let r := geminiFrom op retries fuel (attempt + 1)
          (r.1, r.2.1 + 1, d :: r.2.2)
    else (Except.ok none, 0, [])

/-- The whole `safeGeminiCall` retry wrapper. -/
def geminiRun (op : Nat → GemAttempt) (retries : Nat) :
    Except GErr (Option GemResponse) × Nat × List Nat :=
  geminiFrom op retries retries 0

/-- The error `safeGeminiCall` raises when its final attempt fails. -/
def gemAttemptErr : GemAttempt → GErr
  | GemAttempt.resp _ s _ => GErr.http s
  | GemAttempt.net e => GErr.net e

/-- A failing Gemini attempt: a non-OK response or a thrown transport
error. -/
def gemFails : GemAttempt → Prop
  | GemAttempt.resp ok _ _ => ok = false
  | GemAttempt.net _ => True

/-- `ElewaService.PROCESSING_TEXT`. -/
def PROCESSING_TEXT : List Char :=
  "Processing your request... (This post will be deleted once the summary is ready.)".toList

/-- `ElewaService.ERROR_TEXT`. -/
def ERROR_TEXT : List Char :=
  "Oops! Ran into an issue generating the explanation. Please try again later!".toList

/-- `ElewaService.NO_QUERY_TEXT`. -/
def NO_QUERY_TEXT : List Char :=
  ("I need some text to explain! Please include a post or question for me to " ++
   "summarize or analyze after mentioning my handle.").toList

/-- The guidance reply body built in the empty-query branch. -/
def guidanceText (author : List Char) : List Char :=
  '@' :: author ++ ' ' :: NO_QUERY_TEXT

/-- The composed reply body prefix built before segmentation. -/
def composeBase (author summary : List Char) : List Char :=
  '@' :: author ++ " Here is your explanation:\n\n".toList ++ summary

/-- A usable citation (`{ uri, title }` both present and non-empty). -/
structure Src where
  uri : List Char
  title : List Char
deriving DecidableEq

/-- JS truthiness of a possibly-missing string: `undefined` and the empty
string are falsy. -/
def truthy : Option (List Char) → Bool
  | none => false
  | some l => !l.isEmpty

/-- Extraction of grounding sources from the first candidate: map each
attribution to its `web` uri/title and keep only those where both are
truthy. -/
def extractSources (c : Option GemCandidate) : List Src :=
  match c.bind fun cc => cc.attrs with
  | none => []
  | some attrs =>
    (attrs.map fun a => (a.uri, a.title)).filterMap fun p =>
      if truthy p.1 && truthy p.2 then some ⟨p.1.getD [], p.2.getD []⟩ else none

/-- Summary text and sources computed by the generation step of
`handleMention`: the generated text when present with non-whitespace
content, the fixed `ERROR_TEXT` otherwise (including when the whole call
failed, in which case sources stay empty). -/
def extractSummary : Except GErr (Option GemResponse) → List Char × List Src
  | Except.error _ => (ERROR_TEXT, [])
  | Except.ok none => (ERROR_TEXT, [])
  | Except.ok (some r) =>
    (match r.candidate.bind fun c => c.text with
     | some t => if 0 < (jsTrim t).length then t else ERROR_TEXT
     | none => ERROR_TEXT,
     extractSources r.candidate)

/-- `ElewaService.formatSources`. -/
def formatSources (sources : List Src) : List Char :=
  if sources.length = 0 then []
  else
    "\n\nSources:\n".toList ++
      (sources.enum.map fun p =>
        (Nat.repr (p.1 + 1)).toList ++
          ('.' :: ' ' :: (p.2.title ++ ' ' :: (p.2.uri ++ ['\n'])))).flatten

/-- The trailing sources post appended when the citation block was not
inlined (step 5 of the final-reply block). -/
def sourcesChunk (sources : List Src) : List Char :=
  "\n---\n**Sources (Grounding Metadata):**\n".toList ++
    List.intercalate ['\n'] (sources.enum.map fun p =>
      '[' :: (Nat.repr (p.1 + 1)).toList ++
        (']' :: ' ' :: (p.2.title ++ ' ' :: '(' :: (p.2.uri ++ [')']))))

/-- JS `hay.includes(needle)`: substring test. -/
def jsIncludes : List Char → List Char → Bool
  | hay, needle =>
    if needle.isPrefixOf hay then true
    else
      match hay with
      | [] => false
      | _ :: t => jsIncludes t needle

/-- The compose-and-segment pipeline of `handleMention` (steps 1-5 of the
final-reply block): build the reply body, inline the citation block when
short enough, split into posts, and append the citation block as a final
chunk when it was not inlined. -/
def chunksFor (author summary : List Char) (sources : List Src) : List (List Char) :=
  let base := composeBase author summary
  let sourceText := formatSources sources
  let base' :=
    if 0 < sources.length ∧
        (base.length : Int) < (MAX_POST_LENGTH : Int) - (sourceText.length : Int)
    then base ++ sourceText else base
  let chunks := splitTextIntoPosts base'
  if 0 < sources.length ∧ jsIncludes base' sourceText = false
  then chunks ++ [sourcesChunk sources] else chunks

/-- The external world: the outcome each attempt of each Bluesky
`createRecord` call (indexed by call number within the run, then attempt
number) and each Gemini fetch attempt would have. -/
structure World where
  post : Nat → Nat → Except Nat PostRef
  gemini : Nat → GemAttempt

/-- The normalized mention record consumed by `handleMention`. -/
structure MentionEvent where
  authorDid : List Char
  uri : String
  cid : String
  rootUri : String
  rootCid : String
  postUri : String
  postCid : String
  cleanQuery : List Char

/-- Observable events of one run: a `postRecord` call with its text and
reply link, its success with the returned reference, entry into
`safeGeminiCall`, and a `deleteRecord` call. -/
inductive Ev where
  | publishCall (text : List Char) (link : Option ReplyRef)
  | publishOk (text : List Char) (link : Option ReplyRef) (ref : PostRef)
  | genCall
  | deleteCall (uri : String)
deriving DecidableEq

/-- The mention post's reference (`originalPostRef`). -/
def origRef (d : MentionEvent) : PostRef := ⟨d.uri, d.cid⟩

/-- The thread root reference (`threadPostRef`). -/
def threadRef (d : MentionEvent) : PostRef := ⟨d.rootUri, d.rootCid⟩

/-- `initialReplyRef`: root = thread root, parent = mention post. -/
def initReply (d : MentionEvent) : ReplyRef := ⟨threadRef d, origRef d⟩

/-- One `postRecord` call (call number `call`): the retry wrapper's
result, plus the events it contributes to the trace. -/
def postRecordM (w : World) (call : Nat) (text : List Char) (link : Option ReplyRef) :
    Except (RErr Nat) PostRef × List Ev :=
  ((retryRun (w.post call) 500 5).1,
   Ev.publishCall text link ::
     (match (retryRun (w.post call) 500 5).1 with
      | Except.ok ref => [Ev.publishOk text link ref]
      | Except.error _ => []))

/-- `ElewaService.deleteRecord`: best-effort, all failures swallowed. -/
def deleteRecordM (uri : String) : Except (RErr Nat) Unit × List Ev :=
  (Except.ok (), [Ev.deleteCall uri])

/-- The chunk-publishing loop of `handleMention`: each chunk is posted
with the fixed thread root and the current parent; the parent advances to
the returned reference after each success; a failure aborts the rest. -/
def publishChain (w : World) (root : PostRef) :
    Nat → PostRef → List (List Char) → Except (RErr Nat) Unit × List Ev
  | _, _, [] => (Except.ok (), [])
  | call, parent, chunk :: rest =>
    let p := postRecordM w call chunk (some ⟨root, parent⟩)
    match p.1 with
    | Except.error e => (Except.error e, p.2)
    | Except.ok ref =>
      let q := publishChain w root (call + 1) ref rest
      (q.1, p.2 ++ q.2)

/-- Result of the generation call made by `handleMention`
(`safeGeminiCall(payload)` with default 5 retries). -/
def gemOutcome (w : World) : Except GErr (Option GemResponse) :=
  (geminiRun w.gemini 5).1

/-- The chunks the run will publish, as computed from the generation
outcome. -/
def runChunks (w : World) (d : MentionEvent) : List (List Char) :=
  chunksFor d.authorDid (extractSummary (gemOutcome w)).1 (extractSummary (gemOutcome w)).2

/-- `ElewaService.handleMention`: result (normal return, or the error that
escapes it) and the trace of observable events.  The guidance publish of
the empty-query branch is not wrapped in try/catch, so its error
propagates; the placeholder publish failure returns normally after
logging; generation failure is absorbed by `extractSummary`; chain publish
failures are caught by the final `catch`; the placeholder-delete step is
commented out in the source and therefore absent. -/
def handleMention (w : World) (d : MentionEvent) : Except (RErr Nat) Unit × List Ev :=
  if d.cleanQuery.isEmpty || (jsTrim d.cleanQuery).isEmpty then
    ((postRecordM w 0 (guidanceText d.authorDid) (some (initReply d))).1.map fun _ => (),
     (postRecordM w 0 (guidanceText d.authorDid) (some (initReply d))).2)
  else
    match postRecordM w 0 PROCESSING_TEXT (some (initReply d)) with
    | (Except.error _, evs) => (Except.ok (), evs)
    | (Except.ok ph, evs) =>
      (Except.ok (),
       evs ++ Ev.genCall :: (publishChain w (threadRef d) 1 ph (runChunks w d)).2)

/-- Test for a delete event. -/
def isDeleteEv : Ev → Bool
  | Ev.deleteCall _ => true
  | _ => false

/-- Test for a successful-publish event. -/
def isPublishOkEv : Ev → Bool
  | Ev.publishOk _ _ _ => true
  | _ => false

/-- The C7 invariant on a chain trace: every link's root is the fixed
thread root, the first link's parent is the given reference, and the
parent advances to each successfully returned reference. -/
inductive ChainLinked (root : PostRef) : PostRef → List Ev → Prop where
  | nil (p : PostRef) : ChainLinked root p []
  | stop (p : PostRef) (t : List Char) :
      ChainLinked root p [Ev.publishCall t (some ⟨root, p⟩)]
  | step (p : PostRef) (t : List Char) (r : PostRef) (evs : List Ev) :
      ChainLinked root r evs →
      ChainLinked root p (Ev.publishCall t (some ⟨root, p⟩) ::
        Ev.publishOk t (some ⟨root, p⟩) r :: evs)

/-- The generation outcomes C6 is about: the call failed entirely, or the
extracted text is missing, empty or whitespace-only. -/
def gemFailedOrEmpty : Except GErr (Option GemResponse) → Prop
  | Except.error _ => True
  | Except.ok none => True
  | Except.ok (some r) =>
    match r.candidate.bind fun c => c.text with
    | none => True
    | some t => jsTrim t = []

/-- A world whose Bluesky post calls always fail (error code 7) and whose
Gemini fetches always fail with a transport error. -/
def wAllFail : World := ⟨fun _ _ => Except.error 7, fun _ => GemAttempt.net 0⟩

/-- A successful post reference for call number `call`. -/
def okRef (call : Nat) : PostRef := ⟨"u" ++ Nat.repr call, "c" ++ Nat.repr call⟩

/-- A world where every post succeeds and Gemini returns a short valid
answer with no grounding metadata. -/
def wAllOk : World :=
  ⟨fun call _ => Except.ok (okRef call),
   fun _ => GemAttempt.resp true 200 ⟨some ⟨some "Short answer.".toList, none⟩⟩⟩

/-- A world where every post succeeds but Gemini always fails with a
transport error. -/
def wGenFail : World :=
  ⟨fun call _ => Except.ok (okRef call), fun _ => GemAttempt.net 5⟩

/-- A mention with an empty query. -/
def dEmpty : MentionEvent :=
  ⟨"bob".toList, "at://m", "cm", "at://r", "cr", "at://m", "cm", []⟩

/-- A mention with the non-empty query `"hi"`. -/
def dQuery : MentionEvent :=
  ⟨"bob".toList, "at://m", "cm", "at://r", "cr", "at://m", "cm", "hi".toList⟩

/-- A post operation that fails on its first two attempts and then
succeeds. -/
def opW : Nat → Except Nat PostRef :=
  fun j => if j < 2 then Except.error j else Except.ok (okRef 9)

theorem jsTrim_nil : jsTrim [] = [] := rfl

theorem jsTrim_length_le (l : List Char) : (jsTrim l).length ≤ l.length := by
  unfold jsTrim
  calc (((l.dropWhile isJsWS).reverse.dropWhile isJsWS).reverse).length
      = ((l.dropWhile isJsWS).reverse.dropWhile isJsWS).length := by
        rw [List.length_reverse]
    _ ≤ (l.dropWhile isJsWS).reverse.length := (List.dropWhile_sublist _).length_le
    _ = (l.dropWhile isJsWS).length := by rw [List.length_reverse]
    _ ≤ l.length := (List.dropWhile_sublist _).length_le

theorem lastIdx_none (l : List Char) (c : Char) (h : lastIdx l c = none) :
    ∀ j : Nat, l[j]? ≠ some c := by
  induction l with
  | nil => intro j; simp
  | cons a as ih =>
    intro j
    unfold lastIdx at h
    rcases hm : lastIdx as c with _ | i
    · rw [hm] at h
      by_cases hac : a = c
      · simp [hac] at h
      · cases j with
        | zero => simpa using hac
        | succ j => simpa using ih hm j
    · rw [hm] at h; simp at h

theorem lastIdx_spec (l : List Char) (c : Char) (i : Nat) (h : lastIdx l c = some i) :
    i < l.length ∧ l[i]? = some c ∧ ∀ j : Nat, i < j → l[j]? ≠ some c := by
  induction l generalizing i with
  | nil => simp [lastIdx] at h
  | cons a as ih =>
    unfold lastIdx at h
    rcases hm : lastIdx as c with _ | i'
    · rw [hm] at h
      by_cases hac : a = c
      · simp [hac] at h
        subst h
        refine ⟨by simp, by simpa using hac, ?_⟩
        intro j hj
        cases j with
        | zero => omega
        | succ j => simpa using lastIdx_none as c hm j
      · simp [hac] at h
    · rw [hm] at h
      simp at h
      subst h
      obtain ⟨hlt, hget, hmax⟩ := ih i' hm
      refine ⟨by simpa using hlt, by simpa using hget, ?_⟩
      intro j hj
      cases j with
      | zero => omega
      | succ j => simpa using hmax j (by omega)

theorem lastIdx_isSome (l : List Char) (c : Char) (j : Nat) (h : l[j]? = some c) :
    ∃ i, lastIdx l c = some i := by
  rcases hm : lastIdx l c with _ | i
  · exact absurd h (lastIdx_none l c hm j)
  · exact ⟨i, rfl⟩

theorem splitPoint_pos (rem : List Char) (h : 0 < rem.length) : 0 < splitPoint rem := by
  simp only [splitPoint]
  split
  · split
    · rename_i hgt
      omega
    · simp [maxContentLength, MAX_POST_LENGTH]
  · omega

theorem splitPoint_le_budget (rem : List Char) (h : maxContentLength < rem.length) :
    splitPoint rem ≤ maxContentLength := by
  simp only [splitPoint]
  rw [if_pos h]
  split
  · rename_i hgt
    rcases hm : lastIdx (rem.take maxContentLength) ' ' with _ | i
    · simp [lastIndexOf, hm] at hgt
    · have hi := (lastIdx_spec _ _ _ hm).1
      simp only [List.length_take] at hi
      simp only [lastIndexOf, hm, Int.toNat_ofNat]
      omega
  · omega

theorem splitPoint_le_length (rem : List Char) : splitPoint rem ≤ rem.length := by
  by_cases h : maxContentLength < rem.length
  · exact le_trans (splitPoint_le_budget rem h) (le_of_lt h)
  · simp only [splitPoint]
    rw [if_neg (by omega)]

theorem next_length_lt (rem : List Char) (h : 0 < rem.length) :
    (jsTrim (rem.drop (splitPoint rem))).length < rem.length := by
  have h1 := jsTrim_length_le (rem.drop (splitPoint rem))
  have h2 : (rem.drop (splitPoint rem)).length = rem.length - splitPoint rem :=
    List.length_drop _ _
  have h3 := splitPoint_pos rem h
  have h4 := splitPoint_le_length rem
  omega

theorem splitChunksF_congr (fuel₁ : Nat) : ∀ (fuel₂ : Nat) (rem : List Char),
    rem.length ≤ fuel₁ → rem.length ≤ fuel₂ →
    splitChunksF fuel₁ rem = splitChunksF fuel₂ rem := by
  induction fuel₁ with
  | zero =>
    intro fuel₂ rem h1 _
    have hz : rem.length = 0 := by omega
    cases fuel₂ with
    | zero => rfl
    | succ f => simp [splitChunksF, hz]
  | succ f₁ ih =>
    intro fuel₂ rem h1 h2
    by_cases hz : rem.length = 0
    · cases fuel₂ with
      | zero => simp [splitChunksF, hz]
      | succ f => simp [splitChunksF, hz]
    · have hpos : 0 < rem.length := by omega
      cases fuel₂ with
      | zero => omega
      | succ f₂ =>
        have hnext := next_length_lt rem hpos
        simp only [splitChunksF, hz, if_false]
        rw [ih f₂ (jsTrim (rem.drop (splitPoint rem))) (by omega) (by omega)]

theorem splitChunks_eq (rem : List Char) :
    splitChunks rem =
      if rem.length = 0 then []
      else jsTrim (rem.take (splitPoint rem)) ::
        splitChunks (jsTrim (rem.drop (splitPoint rem))) := by
  by_cases hz : rem.length = 0
  · simp only [hz, if_true]
    unfold splitChunks
    rw [hz]
    rfl
  · have hpos : 0 < rem.length := by omega
    have hnext := next_length_lt rem hpos
    simp only [hz, if_false]
    unfold splitChunks
    obtain ⟨n, hn⟩ : ∃ n, rem.length = n + 1 := ⟨rem.length - 1, by omega⟩
    rw [hn]
    simp only [splitChunksF, hz, if_false]
    rw [splitChunksF_congr n (jsTrim (rem.drop (splitPoint rem))).length _ (by omega) le_rfl]

theorem take_splitPoint_length_le (rem : List Char) :
    (jsTrim (rem.take (splitPoint rem))).length ≤ maxContentLength := by
  refine le_trans (jsTrim_length_le _) ?_
  rw [List.length_take]
  by_cases h : maxContentLength < rem.length
  · have := splitPoint_le_budget rem h
    omega
  · have : splitPoint rem = rem.length := by
      simp only [splitPoint]
      rw [if_neg (by omega)]
    omega

theorem mem_splitChunks_length_le (n : Nat) :
    ∀ (rem : List Char), rem.length ≤ n →
      ∀ c ∈ splitChunks rem, c.length ≤ maxContentLength := by
  induction n with
  | zero =>
    intro rem h c hc
    have hz : rem.length = 0 := by omega
    rw [splitChunks_eq, if_pos hz] at hc
    simp at hc
  | succ n ih =>
    intro rem h c hc
    rw [splitChunks_eq] at hc
    by_cases hz : rem.length = 0
    · rw [if_pos hz] at hc; simp at hc
    · rw [if_neg hz] at hc
      rcases List.mem_cons.mp hc with hc | hc
      · subst hc; exact take_splitPoint_length_le rem
      · have hnext := next_length_lt rem (by omega)
        exact ih (jsTrim (rem.drop (splitPoint rem))) (by omega) c hc

theorem splitChunks_length_bound (rem : List Char) :
    ∀ c ∈ splitChunks rem, c.length ≤ maxContentLength :=
  mem_splitChunks_length_le rem.length rem le_rfl

theorem length_splitTextIntoPosts (text : List Char) :
    (splitTextIntoPosts text).length = (splitChunks text).length := by
  simp [splitTextIntoPosts, List.enum_length]

theorem repr_length_one (m : Nat) (h1 : m < 10) : (Nat.repr m).length = 1 := by
  interval_cases m <;> decide

theorem pageSuffix_length (i n : Nat) (hi : i < 10) (hn : n < 10) :
    (pageSuffix i n).length = 6 := by
  simp [pageSuffix, repr_length_one i hi, repr_length_one n hn]

theorem mem_splitTextIntoPosts (text : List Char) (c : List Char)
    (hc : c ∈ splitTextIntoPosts text) :
    ∃ i x, x ∈ splitChunks text ∧ i < (splitChunks text).length ∧
      c = if (splitChunks text).length > 1
            then x ++ pageSuffix (i + 1) (splitChunks text).length else x := by
  simp only [splitTextIntoPosts, List.mem_map] at hc
  obtain ⟨p, hp, hfc⟩ := hc
  rw [List.enum_eq_zip_range] at hp
  obtain ⟨h1, h2⟩ := List.of_mem_zip hp
  exact ⟨p.1, p.2, h2, List.mem_range.mp h1, hfc.symm⟩

/-- Claim C2 (amended): every displayed chunk fits in `MAX_POST_LENGTH = 300`
provided the chunk count stays below 10, so the pagination suffix
`" (i/n)"` is exactly the 6 reserved characters. -/
theorem splitTextIntoPosts_length_le (text : List Char) (h9 : (splitTextIntoPosts text).length ≤ 9) :
    ∀ c, c ∈ splitTextIntoPosts text → c.length ≤ MAX_POST_LENGTH := by
  intro c hc
  obtain ⟨i, x, hx, hi, hce⟩ := mem_splitTextIntoPosts text c hc
  have hxlen : x.length ≤ maxContentLength := splitChunks_length_bound text x hx
  rw [length_splitTextIntoPosts] at h9
  by_cases h1 : (splitChunks text).length > 1
  · rw [if_pos h1] at hce
    subst hce
    rw [List.length_append, pageSuffix_length (i + 1) (splitChunks text).length
      (by omega) (by omega)]
    simp [maxContentLength, MAX_POST_LENGTH] at hxlen ⊢
    omega
  · rw [if_neg h1] at hce
    subst hce
    simp [maxContentLength, MAX_POST_LENGTH] at hxlen ⊢
    omega

/-- Claim C9: when the remaining text is longer than the content budget, the cut
point is the last space of the 294-character window when that space sits at
an index above 15, and exactly the budget otherwise; the emitted chunk is
the trimmed prefix up to the cut point. -/
theorem splitPoint_spec (text : List Char) (hlen : maxContentLength < text.length) :
    (∀ j : Nat, 15 < j → (text.take maxContentLength)[j]? = some ' ' →
        15 < splitPoint text ∧
        (text.take maxContentLength)[splitPoint text]? = some ' ' ∧
        ∀ k : Nat, splitPoint text < k → (text.take maxContentLength)[k]? ≠ some ' ') ∧
    ((∀ j : Nat, 15 < j → (text.take maxContentLength)[j]? ≠ some ' ') →
        splitPoint text = maxContentLength) ∧
    (splitChunks text).head? = some (jsTrim (text.take (splitPoint text))) := by
  refine ⟨?_, ?_, ?_⟩
  · intro j hj hsp
    obtain ⟨i, hm⟩ := lastIdx_isSome _ ' ' j hsp
    obtain ⟨hilt, hget, hmax⟩ := lastIdx_spec _ ' ' i hm
    have hij : j ≤ i := by
      by_contra hc
      exact hmax j (by omega) hsp
    have hsp_eq : splitPoint text = i := by
      simp only [splitPoint]
      rw [if_pos hlen]
      simp only [lastIndexOf, hm]
      rw [if_pos (by exact_mod_cast by omega : (i : Int) > 15)]
      simp
    rw [hsp_eq]
    exact ⟨by omega, hget, hmax⟩
  · intro hno
    simp only [splitPoint]
    rw [if_pos hlen]
    rcases hm : lastIdx (text.take maxContentLength) ' ' with _ | i
    · simp [lastIndexOf, hm]
    · obtain ⟨hilt, hget, _⟩ := lastIdx_spec _ ' ' i hm
      have hle : i ≤ 15 := by
        by_contra hc
        exact hno i (by omega) hget
      simp only [lastIndexOf, hm]
      rw [if_neg (by exact_mod_cast by omega : ¬ ((i : Int) > 15))]
  · rw [splitChunks_eq, if_neg (by omega)]
    rfl

/-- Claim C10: each loop iteration of the segmenter consumes the whole remaining
text when it fits the budget, and otherwise removes at least 16 characters
(the cut point is the 294-character budget or a space index above 15), so
the remaining length strictly decreases and the loop terminates. -/
theorem splitChunks_decrease (rem : List Char) (h : 0 < rem.length) :
    (rem.length ≤ maxContentLength → jsTrim (rem.drop (splitPoint rem)) = []) ∧
    (maxContentLength < rem.length →
        16 ≤ splitPoint rem ∧
        (jsTrim (rem.drop (splitPoint rem))).length + 16 ≤ rem.length ∧
        (splitPoint rem = maxContentLength ∨
          (15 < splitPoint rem ∧ rem[splitPoint rem]? = some ' '))) ∧
    (jsTrim (rem.drop (splitPoint rem))).length < rem.length := by
  refine ⟨?_, ?_, next_length_lt rem h⟩
  · intro hle
    have hsp : splitPoint rem = rem.length := by
      simp only [splitPoint]
      rw [if_neg (by omega)]
    rw [hsp, List.drop_length, jsTrim_nil]
  · intro hlt
    have hcase : splitPoint rem = maxContentLength ∨
        (15 < splitPoint rem ∧ rem[splitPoint rem]? = some ' ') := by
      simp only [splitPoint]
      rw [if_pos hlt]
      rcases hm : lastIdx (rem.take maxContentLength) ' ' with _ | i
      · left
        simp [lastIndexOf, hm]
      · obtain ⟨hilt, hget, _⟩ := lastIdx_spec _ ' ' i hm
        simp only [List.length_take] at hilt
        by_cases hi : 15 < i
        · right
          simp only [lastIndexOf, hm]
          rw [if_pos (by exact_mod_cast by omega : (i : Int) > 15)]
          simp only [Int.toNat_ofNat]
          rw [List.getElem?_take_of_lt (by omega)] at hget
          exact ⟨hi, hget⟩
        · left
          simp only [lastIndexOf, hm]
          rw [if_neg (by exact_mod_cast by omega : ¬ ((i : Int) > 15))]
    have h16 : 16 ≤ splitPoint rem := by
      rcases hcase with hc | hc
      · rw [hc]; simp [maxContentLength, MAX_POST_LENGTH]
      · omega
    refine ⟨h16, ?_, hcase⟩
    have h1 := jsTrim_length_le (rem.drop (splitPoint rem))
    have h2 : (rem.drop (splitPoint rem)).length = rem.length - splitPoint rem :=
      List.length_drop _ _
    have h4 := splitPoint_le_length rem
    omega

theorem jsTrim_replicate_a (n : Nat) :
    jsTrim (List.replicate n 'a') = List.replicate n 'a' := by
  have hdrop : ∀ m : Nat, (List.replicate m 'a').dropWhile isJsWS = List.replicate m 'a' := by
    intro m
    cases m with
    | zero => rfl
    | succ m => rw [List.replicate_succ, List.dropWhile_cons]; simp [isJsWS]
  unfold jsTrim
  rw [hdrop, List.reverse_replicate, hdrop, List.reverse_replicate]

theorem lastIdx_replicate_a (n : Nat) : lastIdx (List.replicate n 'a') ' ' = none := by
  induction n with
  | zero => rfl
  | succ m ih => rw [List.replicate_succ]; unfold lastIdx; rw [ih]; simp

theorem splitPoint_replicate_big (n : Nat) (h : maxContentLength < n) :
    splitPoint (List.replicate n 'a') = maxContentLength := by
  simp only [splitPoint]
  rw [if_pos (by simpa using h)]
  rw [List.take_replicate]
  have hmin : min maxContentLength n = maxContentLength := by omega
  rw [hmin, lastIndexOf, lastIdx_replicate_a]
  rw [if_neg (by decide)]

theorem splitChunks_replicate_step (n : Nat) (h : maxContentLength < n) :
    splitChunks (List.replicate n 'a') =
      List.replicate maxContentLength 'a' ::
        splitChunks (List.replicate (n - maxContentLength) 'a') := by
  rw [splitChunks_eq, if_neg (by simp; omega)]
  rw [splitPoint_replicate_big n h, List.take_replicate, List.drop_replicate]
  have hmin : min maxContentLength n = maxContentLength := by omega
  rw [hmin, jsTrim_replicate_a, jsTrim_replicate_a]

theorem splitChunks_replicate_small (n : Nat) (h0 : 0 < n) (h : n ≤ maxContentLength) :
    splitChunks (List.replicate n 'a') = [List.replicate n 'a'] := by
  rw [splitChunks_eq, if_neg (by simp; omega)]
  have hsp : splitPoint (List.replicate n 'a') = n := by
    simp only [splitPoint]
    rw [if_neg (by simp; omega)]
    simp
  rw [hsp, List.take_replicate, List.drop_replicate]
  simp only [Nat.min_self, Nat.sub_self, List.replicate_zero, jsTrim_nil,
    jsTrim_replicate_a]
  rw [splitChunks_eq]
  simp

theorem splitChunks_2647 :
    splitChunks (List.replicate 2647 'a') =
      [List.replicate 294 'a', List.replicate 294 'a', List.replicate 294 'a',
       List.replicate 294 'a', List.replicate 294 'a', List.replicate 294 'a',
       List.replicate 294 'a', List.replicate 294 'a', List.replicate 294 'a',
       List.replicate 1 'a'] := by
  have hm : maxContentLength = 294 := by decide
  rw [splitChunks_replicate_step 2647 (by decide), hm]
  rw [show (2647 - 294 : Nat) = 2353 from rfl]
  rw [splitChunks_replicate_step 2353 (by decide), hm]
  rw [show (2353 - 294 : Nat) = 2059 from rfl]
  rw [splitChunks_replicate_step 2059 (by decide), hm]
  rw [show (2059 - 294 : Nat) = 1765 from rfl]
  rw [splitChunks_replicate_step 1765 (by decide), hm]
  rw [show (1765 - 294 : Nat) = 1471 from rfl]
  rw [splitChunks_replicate_step 1471 (by decide), hm]
  rw [show (1471 - 294 : Nat) = 1177 from rfl]
  rw [splitChunks_replicate_step 1177 (by decide), hm]
  rw [show (1177 - 294 : Nat) = 883 from rfl]
  rw [splitChunks_replicate_step 883 (by decide), hm]
  rw [show (883 - 294 : Nat) = 589 from rfl]
  rw [splitChunks_replicate_step 589 (by decide), hm]
  rw [show (589 - 294 : Nat) = 295 from rfl]
  rw [splitChunks_replicate_step 295 (by decide), hm]
  rw [show (295 - 294 : Nat) = 1 from rfl]
  rw [splitChunks_replicate_small 1 (by decide) (by decide)]

theorem splitTextIntoPosts_2647_first :
    List.replicate 294 'a' ++ pageSuffix 1 10 ∈
      splitTextIntoPosts (List.replicate 2647 'a') := by
  simp only [splitTextIntoPosts]
  rw [splitChunks_2647]
  simp only [List.enum, List.enumFrom, List.length_cons, List.length_nil]
  simp only [List.map]
  norm_num

theorem retryFrom_succeeds {ε α : Type} (op : Nat → Except ε α) (base retries : Nat) (a : α) :
    ∀ (m fuel attempt : Nat), attempt + fuel = retries → attempt + m < retries →
      (∀ j, j < m → ∃ e, op (attempt + j) = Except.error e) →
      op (attempt + m) = Except.ok a →
      retryFrom op base retries fuel attempt =
        (Except.ok a, m + 1, (List.range m).map fun j => 2 ^ (attempt + j) * base) := by
  intro m
  induction m with
  | zero =>
    intro fuel attempt h1 h2 _ hok
    obtain ⟨f, rfl⟩ : ∃ f, fuel = f + 1 := ⟨fuel - 1, by omega⟩
    simp only [retryFrom]
    rw [if_pos (by omega)]
    simp only [Nat.add_zero] at hok
    simp only [hok]
    simp
  | succ m ih =>
    intro fuel attempt h1 h2 hf hok
    obtain ⟨f, rfl⟩ : ∃ f, fuel = f + 1 := ⟨fuel - 1, by omega⟩
    simp only [retryFrom]
    rw [if_pos (by omega)]
    obtain ⟨e, he⟩ := hf 0 (by omega)
    simp only [Nat.add_zero] at he
    simp only [he]
    rw [if_neg (show ¬ attempt = retries - 1 by omega)]
    have ihh := ih f (attempt + 1) (by omega) (by omega)
      (fun j hj => by
        obtain ⟨e', he'⟩ := hf (j + 1) (by omega)
        exact ⟨e', by rwa [show attempt + 1 + j = attempt + (j + 1) by omega]⟩)
      (by rwa [show attempt + 1 + m = attempt + (m + 1) by omega])
    rw [ihh]
    refine Prod.ext rfl (Prod.ext rfl ?_)
    show 2 ^ attempt * base :: (List.range m).map (fun j => 2 ^ (attempt + 1 + j) * base) =
      (List.range (m + 1)).map fun j => 2 ^ (attempt + j) * base
    rw [List.range_succ_eq_map, List.map_cons, List.map_map]
    refine congrArg₂ _ (by simp) ?_
    refine List.map_congr_left fun j _ => ?_
    simp only [Function.comp]
    rw [show attempt + (j + 1) = attempt + 1 + j by omega]

theorem retryFrom_allFail {ε α : Type} (op : Nat → Except ε α) (base retries : Nat)
    (f : Nat → ε) :
    ∀ (fuel attempt : Nat), attempt + fuel = retries → attempt < retries →
      (∀ j, j < retries → op j = Except.error (f j)) →
      retryFrom op base retries fuel attempt =
        (Except.error (RErr.op (f (retries - 1))), retries - attempt,
         (List.range (retries - 1 - attempt)).map fun j => 2 ^ (attempt + j) * base) := by
  intro fuel
  induction fuel with
  | zero => intro attempt h1 h2 _; omega
  | succ fu ih =>
    intro attempt h1 h2 hf
    simp only [retryFrom]
    rw [if_pos h2]
    have hfa : op attempt = Except.error (f attempt) := hf attempt (by omega)
    simp only [hfa]
    by_cases hlast : attempt = retries - 1
    · rw [if_pos hlast]
      subst hlast
      have : retries - 1 - (retries - 1) = 0 := by omega
      rw [this]
      have : retries - (retries - 1) = 1 := by omega
      rw [this]
      simp
    · rw [if_neg hlast]
      have ihh := ih (attempt + 1) (by omega) (by omega) hf
      rw [ihh]
      refine Prod.ext rfl (Prod.ext (by simp; omega) ?_)
      show 2 ^ attempt * base ::
          (List.range (retries - 1 - (attempt + 1))).map (fun j => 2 ^ (attempt + 1 + j) * base) =
        (List.range (retries - 1 - attempt)).map fun j => 2 ^ (attempt + j) * base
      have hr : retries - 1 - attempt = (retries - 1 - (attempt + 1)) + 1 := by omega
      rw [hr, List.range_succ_eq_map, List.map_cons, List.map_map]
      refine congrArg₂ _ (by simp) ?_
      refine List.map_congr_left fun j _ => ?_
      simp only [Function.comp]
      rw [show attempt + (j + 1) = attempt + 1 + j by omega]

theorem geminiFrom_succeeds (op : Nat → GemAttempt) (retries : Nat)
    (st : Nat) (body : GemResponse) :
    ∀ (m fuel attempt : Nat), attempt + fuel = retries → attempt + m < retries →
      (∀ j, j < m → gemFails (op (attempt + j))) →
      op (attempt + m) = GemAttempt.resp true st body →
      geminiFrom op retries fuel attempt =
        (Except.ok (some body), m + 1, (List.range m).map fun j => 2 ^ (attempt + j) * 1000) := by
  intro m
  induction m with
  | zero =>
    intro fuel attempt h1 h2 _ hok
    obtain ⟨f, rfl⟩ : ∃ f, fuel = f + 1 := ⟨fuel - 1, by omega⟩
    simp only [geminiFrom]
    rw [if_pos (by omega)]
    simp only [Nat.add_zero] at hok
    simp only [hok]
    simp
  | succ m ih =>
    intro fuel attempt h1 h2 hf hok
    obtain ⟨f, rfl⟩ : ∃ f, fuel = f + 1 := ⟨fuel - 1, by omega⟩
    simp only [geminiFrom]
    rw [if_pos (by omega)]
    have hfail0 := hf 0 (by omega)
    simp only [Nat.add_zero] at hfail0
    have ihh := ih f (attempt + 1) (by omega) (by omega)
      (fun j hj => by
        have := hf (j + 1) (by omega)
        rwa [show attempt + (j + 1) = attempt + 1 + j by omega] at this)
      (by rwa [show attempt + 1 + m = attempt + (m + 1) by omega])
    rcases ha : op attempt with ⟨ok, status, b⟩ | e
    · rw [ha] at hfail0
      have hok_false : ok = false := hfail0
      subst hok_false
      simp only [ha]
      by_cases h429 : status = 429 ∧ attempt < retries - 1
      · rw [if_pos h429, ihh]
        refine Prod.ext rfl (Prod.ext rfl ?_)
        show 2 ^ attempt * 1000 ::
            (List.range m).map (fun j => 2 ^ (attempt + 1 + j) * 1000) =
          (List.range (m + 1)).map fun j => 2 ^ (attempt + j) * 1000
        rw [List.range_succ_eq_map, List.map_cons, List.map_map]
        refine congrArg₂ _ (by simp) ?_
        refine List.map_congr_left fun j _ => ?_
        simp only [Function.comp]
        rw [show attempt + (j + 1) = attempt + 1 + j by omega]
      · rw [if_neg h429, if_neg (show ¬ attempt = retries - 1 by omega), ihh]
        refine Prod.ext rfl (Prod.ext rfl ?_)
        show 2 ^ attempt * 1000 ::
            (List.range m).map (fun j => 2 ^ (attempt + 1 + j) * 1000) =
          (List.range (m + 1)).map fun j => 2 ^ (attempt + j) * 1000
        rw [List.range_succ_eq_map, List.map_cons, List.map_map]
        refine congrArg₂ _ (by simp) ?_
        refine List.map_congr_left fun j _ => ?_
        simp only [Function.comp]
        rw [show attempt + (j + 1) = attempt + 1 + j by omega]
    · simp only [ha]
      rw [if_neg (show ¬ attempt = retries - 1 by omega), ihh]
      refine Prod.ext rfl (Prod.ext rfl ?_)
      show 2 ^ attempt * 1000 ::
          (List.range m).map (fun j => 2 ^ (attempt + 1 + j) * 1000) =
        (List.range (m + 1)).map fun j => 2 ^ (attempt + j) * 1000
      rw [List.range_succ_eq_map, List.map_cons, List.map_map]
      refine congrArg₂ _ (by simp) ?_
      refine List.map_congr_left fun j _ => ?_
      simp only [Function.comp]
      rw [show attempt + (j + 1) = attempt + 1 + j by omega]

theorem geminiFrom_allFail (op : Nat → GemAttempt) (retries : Nat) :
    ∀ (fuel attempt : Nat), attempt + fuel = retries → attempt < retries →
      (∀ j, j < retries → gemFails (op j)) →
      geminiFrom op retries fuel attempt =
        (Except.error (gemAttemptErr (op (retries - 1))), retries - attempt,
         (List.range (retries - 1 - attempt)).map fun j => 2 ^ (attempt + j) * 1000) := by
  intro fuel
  induction fuel with
  | zero => intro attempt h1 h2 _; omega
  | succ fu ih =>
    intro attempt h1 h2 hf
    simp only [geminiFrom]
    rw [if_pos h2]
    have hfa := hf attempt (by omega)
    by_cases hlast : attempt = retries - 1
    · subst hlast
      rcases ha : op (retries - 1) with ⟨ok, status, b⟩ | e
      · rw [ha] at hfa
        have hok_false : ok = false := hfa
        subst hok_false
        simp only [ha]
        rw [if_neg (show ¬ (status = 429 ∧ retries - 1 < retries - 1) by omega)]
        simp only [if_true]
        have h0 : retries - 1 - (retries - 1) = 0 := by omega
        have h1' : retries - (retries - 1) = 1 := by omega
        rw [h0, h1']
        simp [gemAttemptErr]
      · simp only [ha]
        simp only [if_true]
        have h0 : retries - 1 - (retries - 1) = 0 := by omega
        have h1' : retries - (retries - 1) = 1 := by omega
        rw [h0, h1']
        simp [gemAttemptErr]
    · have ihh := ih (attempt + 1) (by omega) (by omega) hf
      have hdelays : 2 ^ attempt * 1000 ::
          (List.range (retries - 1 - (attempt + 1))).map (fun j => 2 ^ (attempt + 1 + j) * 1000) =
          (List.range (retries - 1 - attempt)).map fun j => 2 ^ (attempt + j) * 1000 := by
        have hr : retries - 1 - attempt = (retries - 1 - (attempt + 1)) + 1 := by omega
        rw [hr, List.range_succ_eq_map, List.map_cons, List.map_map]
        refine congrArg₂ _ (by simp) ?_
        refine List.map_congr_left fun j _ => ?_
        simp only [Function.comp]
        rw [show attempt + (j + 1) = attempt + 1 + j by omega]
      rcases ha : op attempt with ⟨ok, status, b⟩ | e
      · rw [ha] at hfa
        have hok_false : ok = false := hfa
        subst hok_false
        simp only [ha]
        by_cases h429 : status = 429 ∧ attempt < retries - 1
        · rw [if_pos h429, ihh]
          exact Prod.ext rfl (Prod.ext (by simp; omega) hdelays)
        · rw [if_neg h429, if_neg hlast, ihh]
          exact Prod.ext rfl (Prod.ext (by simp; omega) hdelays)
      · simp only [ha]
        rw [if_neg hlast, ihh]
        exact Prod.ext rfl (Prod.ext (by simp; omega) hdelays)

theorem retryRun_succeeds {ε α : Type} (op : Nat → Except ε α) (base : Nat) (a : α)
    (k retries : Nat) (hk : k < retries)
    (hf : ∀ j, j < k → ∃ e, op j = Except.error e) (hok : op k = Except.ok a) :
    retryRun op base retries =
      (Except.ok a, k + 1, (List.range k).map fun j => 2 ^ j * base) := by
  have h := retryFrom_succeeds op base retries a k retries 0 (by omega) (by omega)
    (fun j hj => by simpa using hf j hj) (by simpa using hok)
  simpa [retryRun] using h

theorem retryRun_allFail {ε α : Type} (op : Nat → Except ε α) (base : Nat)
    (f : Nat → ε) (retries : Nat) (hret : 0 < retries)
    (hf : ∀ j, j < retries → op j = Except.error (f j)) :
    retryRun op base retries =
      (Except.error (RErr.op (f (retries - 1))), retries,
       (List.range (retries - 1)).map fun j => 2 ^ j * base) := by
  have h := retryFrom_allFail op base retries f retries 0 (by omega) (by omega) hf
  simpa [retryRun] using h

theorem geminiRun_succeeds (op : Nat → GemAttempt) (st : Nat) (body : GemResponse)
    (k retries : Nat) (hk : k < retries)
    (hf : ∀ j, j < k → gemFails (op j)) (hok : op k = GemAttempt.resp true st body) :
    geminiRun op retries =
      (Except.ok (some body), k + 1, (List.range k).map fun j => 2 ^ j * 1000) := by
  have h := geminiFrom_succeeds op retries st body k retries 0 (by omega) (by omega)
    (fun j hj => by simpa using hf j hj) (by simpa using hok)
  simpa [geminiRun] using h

theorem geminiRun_allFail (op : Nat → GemAttempt) (retries : Nat) (hret : 0 < retries)
    (hf : ∀ j, j < retries → gemFails (op j)) :
    geminiRun op retries =
      (Except.error (gemAttemptErr (op (retries - 1))), retries,
       (List.range (retries - 1)).map fun j => 2 ^ j * 1000) := by
  have h := geminiFrom_allFail op retries retries 0 (by omega) (by omega) hf
  simpa [geminiRun] using h

theorem delays_strict_mono (base k : Nat) (hb : 0 < base) :
    List.Pairwise (· < ·) ((List.range k).map fun j => 2 ^ j * base) := by
  rw [List.pairwise_map]
  refine (List.pairwise_lt_range k).imp ?_
  intro i j hij
  exact (Nat.mul_lt_mul_right hb).mpr (Nat.pow_lt_pow_right (by omega) hij)

/-- Claim C2 (counterexample): on 2647 identical characters the segmenter
produces ten chunks, and the first displayed chunk is 294 characters of
content plus the 7-character suffix `" (1/10)"`, i.e. 301 > 300: the
claimed bound `MAX_POST_LENGTH` fails once the chunk count has two
digits. -/
theorem splitTextIntoPosts_exceeds_limit :
    List.replicate 294 'a' ++ pageSuffix 1 10 ∈
      splitTextIntoPosts (List.replicate 2647 'a') ∧
    MAX_POST_LENGTH < (List.replicate 294 'a' ++ pageSuffix 1 10).length := by
  refine ⟨splitTextIntoPosts_2647_first, ?_⟩
  rw [List.length_append, List.length_replicate]
  have hps : (pageSuffix 1 10).length = 7 := by decide
  rw [hps]
  decide

/-- Witness for the amended C2 theorem at a concrete input. -/
theorem splitTextIntoPosts_length_le_witness :
    ("hello".toList).length ≤ MAX_POST_LENGTH :=
  splitTextIntoPosts_length_le "hello".toList (by decide) "hello".toList (by decide)

set_option maxRecDepth 8000 in
/-- Witness for the C9 theorem at a concrete input with a qualifying
space at index 20. -/
theorem splitPoint_spec_witness :
    15 < splitPoint spaceText ∧
    (spaceText.take maxContentLength)[splitPoint spaceText]? = some ' ' := by
  have h := (splitPoint_spec spaceText (by decide)).1 20 (by decide) (by decide)
  exact ⟨h.1, h.2.1⟩

/-- Witness for the C10 theorem at a concrete input. -/
theorem splitChunks_decrease_witness :
    (("hello".toList).length ≤ maxContentLength →
        jsTrim (("hello".toList).drop (splitPoint "hello".toList)) = []) ∧
    (maxContentLength < ("hello".toList).length →
        16 ≤ splitPoint "hello".toList ∧
        (jsTrim (("hello".toList).drop (splitPoint "hello".toList))).length + 16 ≤
          ("hello".toList).length ∧
        (splitPoint "hello".toList = maxContentLength ∨
          (15 < splitPoint "hello".toList ∧
            ("hello".toList)[splitPoint "hello".toList]? = some ' '))) ∧
    (jsTrim (("hello".toList).drop (splitPoint "hello".toList))).length <
      ("hello".toList).length :=
  splitChunks_decrease "hello".toList (by decide)

/-- Claim C3: for both retry wrappers (the post path with 500 ms base delay,
the generation path with 1000 ms base delay, each delay `2 ^ attempt *
base`): an operation failing exactly `k` times then succeeding
(`k < retries`) makes the wrapper return the success value after exactly
`k` strictly increasing sleeps; an operation failing on every attempt
makes the wrapper perform exactly `retries` attempts and raise the last
error. -/
theorem retry_wrappers_spec :
    (∀ (op : Nat → Except Nat PostRef) (a : PostRef) (k retries : Nat),
        k < retries → (∀ j, j < k → ∃ e, op j = Except.error e) →
        op k = Except.ok a →
        retryRun op 500 retries =
          (Except.ok a, k + 1, (List.range k).map fun j => 2 ^ j * 500) ∧
        List.Pairwise (· < ·) ((List.range k).map fun j => 2 ^ j * 500)) ∧
    (∀ (op : Nat → Except Nat PostRef) (f : Nat → Nat) (retries : Nat),
        0 < retries → (∀ j, j < retries → op j = Except.error (f j)) →
        retryRun op 500 retries =
          (Except.error (RErr.op (f (retries - 1))), retries,
           (List.range (retries - 1)).map fun j => 2 ^ j * 500)) ∧
    (∀ (op : Nat → GemAttempt) (st : Nat) (body : GemResponse) (k retries : Nat),
        k < retries → (∀ j, j < k → gemFails (op j)) →
        op k = GemAttempt.resp true st body →
        geminiRun op retries =
          (Except.ok (some body), k + 1, (List.range k).map fun j => 2 ^ j * 1000) ∧
        List.Pairwise (· < ·) ((List.range k).map fun j => 2 ^ j * 1000)) ∧
    (∀ (op : Nat → GemAttempt) (retries : Nat),
        0 < retries → (∀ j, j < retries → gemFails (op j)) →
        geminiRun op retries =
          (Except.error (gemAttemptErr (op (retries - 1))), retries,
           (List.range (retries - 1)).map fun j => 2 ^ j * 1000)) :=
  ⟨fun op a k retries hk hf hok =>
      ⟨retryRun_succeeds op 500 a k retries hk hf hok, delays_strict_mono 500 k (by omega)⟩,
   fun op f retries hret hf => retryRun_allFail op 500 f retries hret hf,
   fun op st body k retries hk hf hok =>
      ⟨geminiRun_succeeds op st body k retries hk hf hok,
       delays_strict_mono 1000 k (by omega)⟩,
   fun op retries hret hf => geminiRun_allFail op retries hret hf⟩

/-- Witness for C3: the post wrapper succeeds after two failures with two
sleeps of 500 and 1000 ms, and the generation wrapper exhausts its five
attempts on a persistent transport error. -/
theorem retry_wrappers_spec_witness :
    (retryRun opW 500 5 =
        (Except.ok (okRef 9), 2 + 1, (List.range 2).map fun j => 2 ^ j * 500) ∧
      List.Pairwise (· < ·) ((List.range 2).map fun j => 2 ^ j * 500)) ∧
    geminiRun (fun _ => GemAttempt.net 3) 5 =
      (Except.error (gemAttemptErr ((fun _ => GemAttempt.net 3) (5 - 1))), 5,
       (List.range (5 - 1)).map fun j => 2 ^ j * 1000) := by
  constructor
  · exact retry_wrappers_spec.1 opW (okRef 9) 2 5 (by decide)
      (fun j hj => ⟨j, by simp [opW, hj]⟩) (by decide)
  · exact retry_wrappers_spec.2.2.2 (fun _ => GemAttempt.net 3) 5 (by decide)
      (fun j _ => trivial)

theorem postRecordM_ok (w : World) (call : Nat) (text : List Char)
    (link : Option ReplyRef) (ref : PostRef)
    (h : (retryRun (w.post call) 500 5).1 = Except.ok ref) :
    postRecordM w call text link =
      (Except.ok ref, [Ev.publishCall text link, Ev.publishOk text link ref]) := by
  simp [postRecordM, h]

theorem postRecordM_err (w : World) (call : Nat) (text : List Char)
    (link : Option ReplyRef) (e : RErr Nat)
    (h : (retryRun (w.post call) 500 5).1 = Except.error e) :
    postRecordM w call text link = (Except.error e, [Ev.publishCall text link]) := by
  simp [postRecordM, h]

theorem handleMention_run (w : World) (d : MentionEvent) (ph : PostRef)
    (h1 : (d.cleanQuery.isEmpty || (jsTrim d.cleanQuery).isEmpty) = false)
    (h2 : (retryRun (w.post 0) 500 5).1 = Except.ok ph) :
    handleMention w d =
      (Except.ok (),
       Ev.publishCall PROCESSING_TEXT (some (initReply d)) ::
       Ev.publishOk PROCESSING_TEXT (some (initReply d)) ph ::
       Ev.genCall :: (publishChain w (threadRef d) 1 ph (runChunks w d)).2) := by
  unfold handleMention
  rw [postRecordM_ok w 0 PROCESSING_TEXT (some (initReply d)) ph h2]
  simp [h1]

theorem handleMention_placeholder_err (w : World) (d : MentionEvent) (e : RErr Nat)
    (h1 : (d.cleanQuery.isEmpty || (jsTrim d.cleanQuery).isEmpty) = false)
    (h2 : (retryRun (w.post 0) 500 5).1 = Except.error e) :
    handleMention w d =
      (Except.ok (), [Ev.publishCall PROCESSING_TEXT (some (initReply d))]) := by
  unfold handleMention
  rw [postRecordM_err w 0 PROCESSING_TEXT (some (initReply d)) e h2]
  simp [h1]

theorem publishChain_linked (w : World) (root : PostRef) :
    ∀ (chunks : List (List Char)) (call : Nat) (parent : PostRef),
      ChainLinked root parent (publishChain w root call parent chunks).2 := by
  intro chunks
  induction chunks with
  | nil => intro call parent; exact ChainLinked.nil parent
  | cons c rest ih =>
    intro call parent
    simp only [publishChain]
    rcases hr : (retryRun (w.post call) 500 5).1 with e | ref
    · rw [postRecordM_err w call c (some ⟨root, parent⟩) e hr]
      exact ChainLinked.stop parent c
    · rw [postRecordM_ok w call c (some ⟨root, parent⟩) ref hr]
      exact ChainLinked.step parent c ref _ (ih (call + 1) ref)

theorem publishChain_head (w : World) (root : PostRef) (call : Nat) (parent : PostRef)
    (c : List Char) (rest : List (List Char)) :
    ((publishChain w root call parent (c :: rest)).2).head? =
      some (Ev.publishCall c (some ⟨root, parent⟩)) := by
  simp only [publishChain]
  rcases hr : (retryRun (w.post call) 500 5).1 with e | ref
  · rw [postRecordM_err w call c (some ⟨root, parent⟩) e hr]
    rfl
  · rw [postRecordM_ok w call c (some ⟨root, parent⟩) ref hr]
    rfl

theorem isDeleteEv_publishCall (t : List Char) (l : Option ReplyRef) :
    isDeleteEv (Ev.publishCall t l) = false := rfl

theorem isDeleteEv_publishOk (t : List Char) (l : Option ReplyRef) (r : PostRef) :
    isDeleteEv (Ev.publishOk t l r) = false := rfl

theorem publishChain_no_delete (w : World) (root : PostRef) :
    ∀ (chunks : List (List Char)) (call : Nat) (parent : PostRef),
      ((publishChain w root call parent chunks).2.filter fun ev => isDeleteEv ev) = [] := by
  intro chunks
  induction chunks with
  | nil => intro call parent; rfl
  | cons c rest ih =>
    intro call parent
    rcases hr : (retryRun (w.post call) 500 5).1 with e | ref
    · have hp := postRecordM_err w call c (some ⟨root, parent⟩) e hr
      simp [publishChain, hp, isDeleteEv_publishCall]
    · have hp := postRecordM_ok w call c (some ⟨root, parent⟩) ref hr
      have ihall : ∀ a ∈ (publishChain w root (call + 1) ref rest).2,
          ¬ isDeleteEv a = true :=
        List.filter_eq_nil_iff.mp (ih (call + 1) ref)
      simp [publishChain, hp, isDeleteEv_publishCall, isDeleteEv_publishOk]
      intro a ha
      simpa using ihall a ha

theorem extractSummary_failed (g : Except GErr (Option GemResponse))
    (h : gemFailedOrEmpty g) : (extractSummary g).1 = ERROR_TEXT := by
  cases g with
  | error e => rfl
  | ok o =>
    cases o with
    | none => rfl
    | some r =>
      simp only [gemFailedOrEmpty] at h
      simp only [extractSummary]
      rcases ht : r.candidate.bind (fun c => c.text) with _ | t
      · simp [ht]
      · simp only [ht] at h
        simp [ht, h]

theorem splitTextIntoPosts_ne_nil (l : List Char) (h : l ≠ []) :
    splitTextIntoPosts l ≠ [] := by
  intro hc
  have hlen := congrArg List.length hc
  rw [length_splitTextIntoPosts, splitChunks_eq,
    if_neg (by simpa using fun hh => h (List.eq_nil_of_length_eq_zero hh))] at hlen
  simp at hlen

theorem composeBase_ne_nil (author summary : List Char) :
    composeBase author summary ≠ [] := by
  simp [composeBase]

theorem chunksFor_ne_nil (author summary : List Char) (sources : List Src) :
    chunksFor author summary sources ≠ [] := by
  simp only [chunksFor]
  split <;> split
  all_goals
    first
      | exact splitTextIntoPosts_ne_nil _ (by simp [composeBase])
      | simp

/-- Claim C1: evaluation of the code at the failing input.  With an empty query
and a Bluesky client that fails every publish attempt, `handleMention`
propagates the post error to its caller (the guidance publish at line 222
is awaited without try/catch), contradicting the never-throws contract. -/
theorem handleMention_guidance_throws :
    (handleMention wAllFail dEmpty).1 = Except.error (RErr.op 7) := by decide

/-- Claim C4: with a query that is empty after trimming and a guidance publish
that succeeds, `handleMention` publishes exactly one reply - the guidance
message, linked with root = thread root and parent = mention post - and
terminates without a placeholder and without a generation call. -/
theorem handleMention_empty_query (w : World) (d : MentionEvent) (r : PostRef)
    (h0 : (d.cleanQuery.isEmpty || (jsTrim d.cleanQuery).isEmpty) = true)
    (h2 : (retryRun (w.post 0) 500 5).1 = Except.ok r) :
    handleMention w d =
      (Except.ok (),
       [Ev.publishCall (guidanceText d.authorDid) (some (initReply d)),
        Ev.publishOk (guidanceText d.authorDid) (some (initReply d)) r]) ∧
    Ev.genCall ∉ (handleMention w d).2 ∧
    initReply d = ⟨threadRef d, origRef d⟩ := by
  have hpost := postRecordM_ok w 0 (guidanceText d.authorDid) (some (initReply d)) r h2
  have hmain : handleMention w d =
      (Except.ok (),
       [Ev.publishCall (guidanceText d.authorDid) (some (initReply d)),
        Ev.publishOk (guidanceText d.authorDid) (some (initReply d)) r]) := by
    unfold handleMention
    rw [hpost]
    simp [h0, Except.map]
  refine ⟨hmain, ?_, rfl⟩
  rw [hmain]
  simp

/-- Witness for C4 at a concrete world and mention. -/
theorem handleMention_empty_query_witness :
    handleMention wAllOk dEmpty =
      (Except.ok (),
       [Ev.publishCall (guidanceText dEmpty.authorDid) (some (initReply dEmpty)),
        Ev.publishOk (guidanceText dEmpty.authorDid) (some (initReply dEmpty)) (okRef 0)]) ∧
    Ev.genCall ∉ (handleMention wAllOk dEmpty).2 ∧
    initReply dEmpty = ⟨threadRef dEmpty, origRef dEmpty⟩ :=
  handleMention_empty_query wAllOk dEmpty (okRef 0) (by decide) (by decide)

/-- Claim C5: with a non-empty query and a placeholder publish failing after all
retry attempts, the run terminates normally (the failure is only logged):
its trace is exactly the failed placeholder call - no successful publish,
no generation call, no chain post. -/
theorem handleMention_placeholder_fatal (w : World) (d : MentionEvent) (e : RErr Nat)
    (h1 : (d.cleanQuery.isEmpty || (jsTrim d.cleanQuery).isEmpty) = false)
    (h2 : (retryRun (w.post 0) 500 5).1 = Except.error e) :
    handleMention w d =
      (Except.ok (), [Ev.publishCall PROCESSING_TEXT (some (initReply d))]) ∧
    Ev.genCall ∉ (handleMention w d).2 ∧
    ((handleMention w d).2.filter fun ev => isPublishOkEv ev) = [] := by
  have hmain := handleMention_placeholder_err w d e h1 h2
  refine ⟨hmain, ?_, ?_⟩
  · rw [hmain]; simp
  · rw [hmain]; rfl

/-- Witness for C5 at a concrete world and mention. -/
theorem handleMention_placeholder_fatal_witness :
    handleMention wAllFail dQuery =
      (Except.ok (), [Ev.publishCall PROCESSING_TEXT (some (initReply dQuery))]) ∧
    Ev.genCall ∉ (handleMention wAllFail dQuery).2 ∧
    ((handleMention wAllFail dQuery).2.filter fun ev => isPublishOkEv ev) = [] :=
  handleMention_placeholder_fatal wAllFail dQuery (RErr.op 7) (by decide) (by decide)

/-- Claim C6: when the run reaches generation and the generation call fails
entirely, or returns missing/empty/whitespace-only text, the summary is
substituted with the fixed `ERROR_TEXT` apology and the run proceeds to
publish the reply chain built from it (the first chain publish carries the
first chunk of the apology body); the run's result is a normal return. -/
theorem handleMention_gen_degrades (w : World) (d : MentionEvent) (ph : PostRef)
    (h1 : (d.cleanQuery.isEmpty || (jsTrim d.cleanQuery).isEmpty) = false)
    (h2 : (retryRun (w.post 0) 500 5).1 = Except.ok ph)
    (h3 : gemFailedOrEmpty (gemOutcome w)) :
    (handleMention w d).1 = Except.ok () ∧
    (extractSummary (gemOutcome w)).1 = ERROR_TEXT ∧
    (handleMention w d).2 =
      Ev.publishCall PROCESSING_TEXT (some (initReply d)) ::
      Ev.publishOk PROCESSING_TEXT (some (initReply d)) ph ::
      Ev.genCall :: (publishChain w (threadRef d) 1 ph
        (chunksFor d.authorDid ERROR_TEXT (extractSummary (gemOutcome w)).2)).2 ∧
    chunksFor d.authorDid ERROR_TEXT (extractSummary (gemOutcome w)).2 ≠ [] ∧
    ((publishChain w (threadRef d) 1 ph
        (chunksFor d.authorDid ERROR_TEXT (extractSummary (gemOutcome w)).2)).2).head? =
      (chunksFor d.authorDid ERROR_TEXT (extractSummary (gemOutcome w)).2).head?.map
        (fun c => Ev.publishCall c (some ⟨threadRef d, ph⟩)) ∧
    ERROR_TEXT <:+: composeBase d.authorDid ERROR_TEXT := by
  have hsum := extractSummary_failed (gemOutcome w) h3
  have hrun := handleMention_run w d ph h1 h2
  have hchunks : runChunks w d =
      chunksFor d.authorDid ERROR_TEXT (extractSummary (gemOutcome w)).2 := by
    rw [runChunks, hsum]
  refine ⟨by rw [hrun], hsum, by rw [hrun, hchunks], chunksFor_ne_nil _ _ _, ?_, ?_⟩
  · rcases hc : chunksFor d.authorDid ERROR_TEXT (extractSummary (gemOutcome w)).2
      with _ | ⟨c, rest⟩
    · exact absurd hc (chunksFor_ne_nil _ _ _)
    · rw [publishChain_head]
      simp
  · exact ⟨'@' :: d.authorDid ++ " Here is your explanation:\n\n".toList, [],
      by simp [composeBase]⟩

/-- Witness for C6 at a concrete world (posts succeed, generation always
fails with a transport error) and mention. -/
theorem handleMention_gen_degrades_witness :
    (handleMention wGenFail dQuery).1 = Except.ok () ∧
    (extractSummary (gemOutcome wGenFail)).1 = ERROR_TEXT ∧
    (handleMention wGenFail dQuery).2 =
      Ev.publishCall PROCESSING_TEXT (some (initReply dQuery)) ::
      Ev.publishOk PROCESSING_TEXT (some (initReply dQuery)) (okRef 0) ::
      Ev.genCall :: (publishChain wGenFail (threadRef dQuery) 1 (okRef 0)
        (chunksFor dQuery.authorDid ERROR_TEXT
          (extractSummary (gemOutcome wGenFail)).2)).2 ∧
    chunksFor dQuery.authorDid ERROR_TEXT (extractSummary (gemOutcome wGenFail)).2 ≠ [] ∧
    ((publishChain wGenFail (threadRef dQuery) 1 (okRef 0)
        (chunksFor dQuery.authorDid ERROR_TEXT
          (extractSummary (gemOutcome wGenFail)).2)).2).head? =
      (chunksFor dQuery.authorDid ERROR_TEXT
        (extractSummary (gemOutcome wGenFail)).2).head?.map
        (fun c => Ev.publishCall c (some ⟨threadRef dQuery, okRef 0⟩)) ∧
    ERROR_TEXT <:+: composeBase dQuery.authorDid ERROR_TEXT :=
  handleMention_gen_degrades wGenFail dQuery (okRef 0) (by decide) (by decide)
    (by rw [show gemOutcome wGenFail = Except.error (GErr.net 5) from by decide]; trivial)

/-- Claim C7: throughout a run with a non-empty query and a successful
placeholder, the trace is the placeholder publish (root = thread root,
parent = mention post), the generation call, then a chain whose links all
carry the fixed thread root, whose first parent is the placeholder
reference, and whose parent advances to each successfully returned
reference (`ChainLinked`). -/
theorem handleMention_chain_links (w : World) (d : MentionEvent) (ph : PostRef)
    (h1 : (d.cleanQuery.isEmpty || (jsTrim d.cleanQuery).isEmpty) = false)
    (h2 : (retryRun (w.post 0) 500 5).1 = Except.ok ph) :
    (handleMention w d).2 =
      Ev.publishCall PROCESSING_TEXT (some (initReply d)) ::
      Ev.publishOk PROCESSING_TEXT (some (initReply d)) ph ::
      Ev.genCall :: (publishChain w (threadRef d) 1 ph (runChunks w d)).2 ∧
    initReply d = ⟨threadRef d, origRef d⟩ ∧
    ChainLinked (threadRef d) ph ((publishChain w (threadRef d) 1 ph (runChunks w d)).2) :=
  ⟨by rw [handleMention_run w d ph h1 h2], rfl,
   publishChain_linked w (threadRef d) (runChunks w d) 1 ph⟩

/-- Witness for C7 at a concrete world and mention. -/
theorem handleMention_chain_links_witness :
    (handleMention wAllOk dQuery).2 =
      Ev.publishCall PROCESSING_TEXT (some (initReply dQuery)) ::
      Ev.publishOk PROCESSING_TEXT (some (initReply dQuery)) (okRef 0) ::
      Ev.genCall ::
        (publishChain wAllOk (threadRef dQuery) 1 (okRef 0) (runChunks wAllOk dQuery)).2 ∧
    initReply dQuery = ⟨threadRef dQuery, origRef dQuery⟩ ∧
    ChainLinked (threadRef dQuery) (okRef 0)
      ((publishChain wAllOk (threadRef dQuery) 1 (okRef 0) (runChunks wAllOk dQuery)).2) :=
  handleMention_chain_links wAllOk dQuery (okRef 0) (by decide) (by decide)

/-- Claim C8 (counterexample): a run in which every publish succeeds - the trace
ends with the successful publication of the last chunk - performs no
delete call at all: the placeholder-delete step is commented out in the
source, so no deletion is attempted after the last chunk succeeds. -/
theorem handleMention_no_delete_after_success :
    (handleMention wAllOk dQuery).1 = Except.ok () ∧
    ((handleMention wAllOk dQuery).2.filter fun ev => isDeleteEv ev) = [] ∧
    isPublishOkEv (((handleMention wAllOk dQuery).2.getLast?).getD Ev.genCall) = true := by
  decide

/-- Claim C8 (amended): no run of `handleMention` ever attempts a delete: the
cleanup step is disabled in the current code, so after the last chunk is
published the run just logs and terminates, leaving the placeholder in
place. -/
theorem handleMention_never_deletes (w : World) (d : MentionEvent) :
    ((handleMention w d).2.filter fun ev => isDeleteEv ev) = [] := by
  unfold handleMention
  by_cases h0 : (d.cleanQuery.isEmpty || (jsTrim d.cleanQuery).isEmpty) = true
  · rcases hr : (retryRun (w.post 0) 500 5).1 with e | ref
    · have hp := postRecordM_err w 0 (guidanceText d.authorDid) (some (initReply d)) e hr
      simp [h0, hp, isDeleteEv_publishCall]
    · have hp := postRecordM_ok w 0 (guidanceText d.authorDid) (some (initReply d)) ref hr
      simp [h0, hp, isDeleteEv_publishCall, isDeleteEv_publishOk]
  · have h0' : (d.cleanQuery.isEmpty || (jsTrim d.cleanQuery).isEmpty) = false := by
      revert h0
      cases d.cleanQuery.isEmpty || (jsTrim d.cleanQuery).isEmpty <;> simp
    rcases hr : (retryRun (w.post 0) 500 5).1 with e | ref
    · have hp := postRecordM_err w 0 PROCESSING_TEXT (some (initReply d)) e hr
      simp [h0', hp, isDeleteEv_publishCall]
    · have hp := postRecordM_ok w 0 PROCESSING_TEXT (some (initReply d)) ref hr
      have hchain : ∀ a ∈ (publishChain w (threadRef d) 1 ref (runChunks w d)).2,
          ¬ isDeleteEv a = true :=
        List.filter_eq_nil_iff.mp
          (publishChain_no_delete w (threadRef d) (runChunks w d) 1 ref)
      simp [h0', hp, isDeleteEv_publishCall, isDeleteEv_publishOk]
      refine ⟨rfl, fun a ha => ?_⟩
      simpa using hchain a ha

end Elewa
